import Mathlib

/-!
Verification of the batch-upgrade-npm-packages core (lib/index.js).

The JavaScript source is shallowly embedded: every exported function of
lib/index.js (versionIsHigherOrEqual, packageExists, getCurrentVersion,
updatePackageJson, updateRepo, updatePackages) is translated to a Lean
definition over an explicit environment that records the outcome of every
external command (git, npm, gh) and of the fallible filesystem writes.
JavaScript exceptions are modelled as explicit error/abort branches; the
per-repository pipeline produces a trace of the external steps it ran,
so ordering properties (install phases, commits, cleanup) are theorems
about that trace.
-/

namespace BatchUpgrade

/-! ## Version comparator (lib/index.js, versionIsHigherOrEqual)

The function strips one leading range operator with the regex /^[\^~=]/ and
delegates to the external semver library's gte, which raises an exception on
a string that is not a valid version. -/

/-- Strip one leading range-operator character, as the regex /^[\^~=]/ does. -/
def stripRangeOpList : List Char → List Char
  | [] => []
  | c :: cs => if c = '^' || c = '~' || c = '=' then cs else c :: cs

/-- String form of `stripRangeOpList`. -/
def stripRangeOp (s : String) : String := ⟨stripRangeOpList s.data⟩

/-- Does the string start with one of the range-operator characters. -/
def startsWithRangeOp (s : String) : Bool :=
  match s.data with
  | [] => false
  | c :: _ => c = '^' || c = '~' || c = '='

/-- Split a character list at every dot. -/
def splitOnDot : List Char → List (List Char)
  | [] => [[]]
  | c :: cs =>
    if c = '.' then [] :: splitOnDot cs
    else
      match splitOnDot cs with
      | [] => [[c]]
      | h :: t => (c :: h) :: t

/-- Decimal digits to a natural number. -/
def digitsToNat (l : List Char) : Nat :=
  l.foldl (fun n c => 10 * n + (c.toNat - '0'.toNat)) 0

/-- A nonempty all-digit component parses to its numeric value. -/
def parseNumComponent (l : List Char) : Option Nat :=
  if l ≠ [] ∧ l.all Char.isDigit then some (digitsToNat l) else none

/-- Modelled from the spec: the external semver library (not part of this
repository) parses "a dotted numeric version": exactly three dot-separated
numeric components major.minor.patch. -/
def parseVersion (s : String) : Option (Nat × Nat × Nat) :=
  match splitOnDot s.data with
  | [a, b, c] =>
    match parseNumComponent a, parseNumComponent b, parseNumComponent c with
    | some x, some y, some z => some (x, y, z)
    | _, _, _ => none
  | _ => none

/-- Greater-or-equal on major.minor.patch triples: numeric comparison per
component, major first. -/
def tripleGe : Nat × Nat × Nat → Nat × Nat × Nat → Bool
  | (a1, a2, a3), (b1, b2, b3) =>
    if a1 ≠ b1 then decide (a1 > b1)
    else if a2 ≠ b2 then decide (a2 > b2)
    else decide (a3 ≥ b3)

/-- Modelled from the spec: semver.gte compares two version strings under
standard major.minor.patch ordering and raises (modelled as `Except.error`)
when either string cannot be parsed. -/
def semverGte (a b : String) : Except String Bool :=
  match parseVersion a, parseVersion b with
  | some va, some vb => Except.ok (tripleGe va vb)
  | _, _ => Except.error "Invalid Version"

/-- lib/index.js versionIsHigherOrEqual: strip one leading range operator
from each argument, then semver.gte on the cleaned strings. The error case
models the exception the un-caught semver call raises. -/
def versionIsHigherOrEqual (current target : String) : Except String Bool :=
  semverGte (stripRangeOp current) (stripRangeOp target)

/-! ## Manifest model (package.json) -/

/-- The three dependency sections of a manifest, in the priority order the
code scans them. -/
inductive DepSection
  | dependencies
  | devDependencies
  | peerDependencies
deriving DecidableEq, Repr

/-- A parsed package.json restricted to the three dependency sections: each
present section is an ordered list of (package name, version string) entries
with the object's key order. -/
structure Manifest where
  dependencies : Option (List (String × String))
  devDependencies : Option (List (String × String))
  peerDependencies : Option (List (String × String))
deriving DecidableEq, Repr

def Manifest.get (m : Manifest) : DepSection → Option (List (String × String))
  | .dependencies => m.dependencies
  | .devDependencies => m.devDependencies
  | .peerDependencies => m.peerDependencies

def Manifest.set (m : Manifest) : DepSection → List (String × String) → Manifest
  | .dependencies, l => { m with dependencies := some l }
  | .devDependencies, l => { m with devDependencies := some l }
  | .peerDependencies, l => { m with peerDependencies := some l }

/-- The state of the package.json file on disk: absent, present but not
valid JSON, or parsed. -/
inductive ManifestFile
  | missing
  | invalid
  | valid (m : Manifest)
deriving DecidableEq, Repr

/-- JavaScript truthy lookup `obj[pkg]`: the entry's value when the key is
present with a non-empty value, none otherwise (an empty string is falsy). -/
def truthyLookup (l : List (String × String)) (pkg : String) : Option String :=
  match l.lookup pkg with
  | some v => if v = "" then none else some v
  | none => none

/-- Truthy check `packageJson[section] && packageJson[section][pkg]` for one
section of a parsed manifest. -/
def sectionHasTruthy (m : Manifest) (s : DepSection) (pkg : String) : Bool :=
  match m.get s with
  | some l => (truthyLookup l pkg).isSome
  | none => false

/-- lib/index.js packageExists: false when the file is absent or JSON.parse
throws (the catch returns false); otherwise the package is looked up in the
three sections with truthy semantics. -/
def packageExists (f : ManifestFile) (pkg : String) : Bool :=
  match f with
  | .valid m =>
    sectionHasTruthy m .dependencies pkg || sectionHasTruthy m .devDependencies pkg ||
      sectionHasTruthy m .peerDependencies pkg
  | _ => false

/-- Truthy value of `packageJson[section][pkg]` when the section itself is
present (truthy), none otherwise. -/
def sectionTruthyVal (m : Manifest) (s : DepSection) (pkg : String) : Option String :=
  match m.get s with
  | some l => truthyLookup l pkg
  | none => none

/-- lib/index.js getCurrentVersion: scan dependencies, devDependencies,
peerDependencies in that order and return the first section holding the
package with a truthy value; none when the file is absent or unparsable. -/
def getCurrentVersion (f : ManifestFile) (pkg : String) : Option (DepSection × String) :=
  match f with
  | .valid m =>
    match sectionTruthyVal m .dependencies pkg with
    | some v => some (.dependencies, v)
    | none =>
      match sectionTruthyVal m .devDependencies pkg with
      | some v => some (.devDependencies, v)
      | none =>
        match sectionTruthyVal m .peerDependencies pkg with
        | some v => some (.peerDependencies, v)
        | none => none
  | _ => none

/-- Replace the value stored at an existing key, keeping the entry order
(JavaScript assignment to an existing object key). -/
def setKey (l : List (String × String)) (pkg ver : String) : List (String × String) :=
  l.map fun p => if p.1 = pkg then (p.1, ver) else p

/-- lib/index.js updatePackageJson: read and parse the file (a read or parse
failure is caught and yields false), check
`packageJson[section] && packageJson[section][pkg] !== undefined`, and only
then assign and write the file back. `writeOk` is the environment's verdict
on the writeFileSync call: when the write throws, the catch returns false
and the file keeps its previous content. Returns the possibly-updated file
and the boolean result. -/
def updatePackageJson (f : ManifestFile) (sec : DepSection) (pkg ver : String)
    (writeOk : Bool) : ManifestFile × Bool :=
  match f with
  | .missing => (f, false)
  | .invalid => (f, false)
  | .valid m =>
    match m.get sec with
    | some l =>
      if (l.lookup pkg).isSome then
        if writeOk then (.valid (m.set sec (setKey l pkg ver)), true) else (f, false)
      else (f, false)
    | none => (f, false)

/-- Keys of one section of a manifest file, for the update-only property. -/
def sectionKeys (f : ManifestFile) (s : DepSection) : Option (List String) :=
  match f with
  | .valid m => (m.get s).map (List.map Prod.fst)
  | _ => none

/-! ## Repository pipeline (lib/index.js, updateRepo)

The external world is an environment recording the outcome of every git,
npm and gh invocation for one repository, the package.json on disk, and
whether each writeFileSync inside updatePackageJson succeeds. The pipeline
result carries, besides the boolean updateRepo returns, the final working
directory, the package.json content, and a trace of the external steps the
run performed. -/

/-- One external step of the pipeline, in the order the code performs it. -/
inductive Event
  | chdirRepo
  | gitResetHard
  | gitCheckoutMain
  | gitPull
  | gitCheckoutNewBranch
  | backupManifest
  | manifestEdit (pkg ver : String) (ok : Bool)
  | restoreBackup
  | removeBackup
  | removeNodeModulesStep
  | npmInstallForce
  | npmInstallRegular
  | gitDiffCheck
  | gitAddFiles
  | gitCommit (msg : String)
  | gitPush
  | ghPrCreate (title body : String)
  | gitCheckoutMainCleanup
  | gitBranchDelete
  | chdirOriginal
deriving DecidableEq, Repr

/-- Outcomes of the external commands and fallible writes for one
repository. -/
structure RepoEnv where
  /-- process.chdir into the resolved repository path does not throw. -/
  chdirOk : Bool
  checkoutMainOk : Bool
  pullOk : Bool
  branchOk : Bool
  /-- package.json as left by reset, checkout, pull and branch creation. -/
  manifest : ManifestFile
  /-- Per package name: writeFileSync inside updatePackageJson succeeds. -/
  editWriteOk : String → Bool
  forceInstallOk : Bool
  regularInstallOk : Bool
  /-- The `git diff --quiet ... || echo "changes"` probe printed "changes". -/
  diffReportsChanges : Bool
  pushOk : Bool
  prOk : Bool

/-- Arguments updateRepo receives (its options object). -/
structure UpdateArgs where
  repoPath : String
  packages : List String
  versions : List String
  branchName : String
  prTitle : String
  prBody : String

/-- Observable result of one updateRepo run. -/
structure RepoResult where
  /-- The boolean updateRepo returns to its caller. -/
  ret : Bool
  /-- process.cwd() as the caller observes it after the call. -/
  finalCwd : String
  trace : List Event
  /-- package.json on disk at exit. -/
  manifest : ManifestFile
  /-- package.json.bak still on disk at exit. -/
  backupPresent : Bool
  /-- The updateSuccess flag: some manifest edit succeeded. -/
  dirty : Bool
  /-- The updatedPackages/updatedVersions arrays, zipped. -/
  selected : List (String × String)
  committed : Bool
  commitMsg : Option String
  prCreated : Bool
  prInfo : Option (String × String)
  branchDeleted : Bool
deriving DecidableEq, Repr

/-- State threaded through the analyze-and-update loop. -/
structure AnalyzeState where
  file : ManifestFile
  dirty : Bool
  selected : List (String × String)
  trace : List Event
deriving DecidableEq, Repr

/-- The per-package loop of updateRepo (lib/index.js lines 834-873): skip a
package that does not exist or whose current version cannot be determined;
skip when the current version is already at least the target; otherwise push
the package onto updatedPackages FIRST and then attempt the manifest edit,
setting the dirty flag only when the edit succeeded. A comparator exception
(unparsable version) aborts the loop; the second component is true when that
happened. -/
def analyzeLoop (env : RepoEnv) : AnalyzeState → List (String × String) → AnalyzeState × Bool
  | st, [] => (st, false)
  | st, (pkg, ver) :: rest =>
    if packageExists st.file pkg = false then analyzeLoop env st rest
    else
      match getCurrentVersion st.file pkg with
      | none => analyzeLoop env st rest
      | some (sec, cur) =>
        match versionIsHigherOrEqual cur ver with
        | .error _ => (st, true)
        | .ok true => analyzeLoop env st rest
        | .ok false =>
          let res := updatePackageJson st.file sec pkg ver (env.editWriteOk pkg)
          analyzeLoop env
            { file := res.1, dirty := st.dirty || res.2,
              selected := st.selected ++ [(pkg, ver)],
              trace := st.trace ++ [Event.manifestEdit pkg ver res.2] } rest

/-- The analyze loop as updateRepo starts it: fresh flags over the manifest
the repository preparation left on disk. -/
def analyzeOf (env : RepoEnv) (a : UpdateArgs) : AnalyzeState × Bool :=
  analyzeLoop env ⟨env.manifest, false, [], []⟩ (a.packages.zip a.versions)

/-- An early `process.chdir(originalDir); return false` exit of updateRepo. -/
def mkFail (d : String) (tr : List Event) (file : ManifestFile) (bak dirty : Bool)
    (sel : List (String × String)) (committed : Bool) (cm : Option String) : RepoResult :=
  { ret := false, finalCwd := d, trace := tr ++ [Event.chdirOriginal],
    manifest := file, backupPresent := bak, dirty := dirty, selected := sel,
    committed := committed, commitMsg := cm, prCreated := false, prInfo := none,
    branchDeleted := false }

/-- The comma-separated `pkg@ver` list the code builds from updatedPackages
and updatedVersions. -/
def mkPackageListPairs : List (String × String) → String
  | [] => ""
  | [(p, v)] => p ++ "@" ++ v
  | (p, v) :: rest => p ++ "@" ++ v ++ ", " ++ mkPackageListPairs rest

/-- The PR body the code builds from the updated packages. -/
def mkPrBodyPairs (sel : List (String × String)) : String :=
  "This PR updates the following npm packages:\n\n" ++
    (sel.foldl (fun acc pv => acc ++ "- " ++ pv.1 ++ " to " ++ pv.2 ++ "\n") "") ++
    "\nAutomatically generated by batch-upgrade-npm-packages."

/-- The finalPrTitle the code commits with: derived from the updated
packages when that list joins to a non-empty (truthy) string, the original
requested-packages title otherwise. -/
def finalTitle (a : UpdateArgs) (sel : List (String × String)) : String :=
  if mkPackageListPairs sel = "" then a.prTitle
  else "Update npm packages: " ++ mkPackageListPairs sel

/-- The finalPrBody the code opens the PR with. -/
def finalBody (a : UpdateArgs) (sel : List (String × String)) : String :=
  if mkPackageListPairs sel = "" then a.prBody else mkPrBodyPairs sel

/-- Change detection and commit/publish (lib/index.js lines 927-987): run the
diff probe; with no changes, check out main, delete the branch and return
true; with changes, derive title and body from the updatedPackages list when
it is non-empty (JavaScript truthiness of the joined string), stage, commit,
push and open the PR, each of the last two aborting on failure. -/
def diffPhase (env : RepoEnv) (a : UpdateArgs) (d : String) (tr : List Event)
    (file : ManifestFile) (dirty : Bool) (sel : List (String × String)) : RepoResult :=
  let t := tr ++ [Event.gitDiffCheck]
  if env.diffReportsChanges then
    let fTitle := finalTitle a sel
    let fBody := finalBody a sel
    let tC := t ++ [Event.gitAddFiles, Event.gitCommit fTitle, Event.gitPush]
    if env.pushOk = false then mkFail d tC file false dirty sel true (some fTitle)
    else
      let tP := tC ++ [Event.ghPrCreate fTitle fBody]
      if env.prOk = false then mkFail d tP file false dirty sel true (some fTitle)
      else
        { ret := true, finalCwd := d, trace := tP ++ [Event.chdirOriginal],
          manifest := file, backupPresent := false, dirty := dirty, selected := sel,
          committed := true, commitMsg := some fTitle, prCreated := true,
          prInfo := some (fTitle, fBody), branchDeleted := false }
  else
    { ret := true, finalCwd := d,
      trace := t ++ [Event.gitCheckoutMainCleanup, Event.gitBranchDelete, Event.chdirOriginal],
      manifest := file, backupPresent := false, dirty := dirty, selected := sel,
      committed := false, commitMsg := none, prCreated := false, prInfo := none,
      branchDeleted := true }

/-- Install verification (lib/index.js lines 886-924): only when the dirty
flag is set, remove node_modules, npm install --force (abort on failure),
remove node_modules again, npm install (abort on failure); then fall through
to change detection. -/
def installPhase (env : RepoEnv) (a : UpdateArgs) (d : String) (tr : List Event)
    (file : ManifestFile) (dirty : Bool) (sel : List (String × String)) : RepoResult :=
  if dirty then
    let tF := tr ++ [Event.removeNodeModulesStep, Event.npmInstallForce]
    if env.forceInstallOk = false then mkFail d tF file false dirty sel false none
    else
      let tR := tF ++ [Event.removeNodeModulesStep, Event.npmInstallRegular]
      if env.regularInstallOk = false then mkFail d tR file false dirty sel false none
      else diffPhase env a d tR file dirty sel
  else diffPhase env a d tr file dirty sel

/-- lib/index.js updateRepo: save process.cwd(), chdir into the repository
(a throw is caught: chdir back, return false), hard reset (result unread),
checkout main, pull, create the branch (each failure: chdir back, return
false); when package.json exists, back it up, run the analyze loop (a
comparator exception reaches the top-level catch with the backup still on
disk), restore the backup when nothing was updated and then always remove
it; install verification; change detection and publication; every exit path
restores the original working directory. -/
def updateRepo (env : RepoEnv) (a : UpdateArgs) (d : String) : RepoResult :=
  if env.chdirOk = false then mkFail d [] env.manifest false false [] false none
  else
    let t1 := [Event.chdirRepo, Event.gitResetHard, Event.gitCheckoutMain]
    if env.checkoutMainOk = false then mkFail d t1 env.manifest false false [] false none
    else
      let t2 := t1 ++ [Event.gitPull]
      if env.pullOk = false then mkFail d t2 env.manifest false false [] false none
      else
        let t3 := t2 ++ [Event.gitCheckoutNewBranch]
        if env.branchOk = false then mkFail d t3 env.manifest false false [] false none
        else
          if env.manifest = ManifestFile.missing then
            installPhase env a d t3 env.manifest false []
          else
            let res := analyzeOf env a
            let st := res.1
            if res.2 then
              mkFail d (t3 ++ Event.backupManifest :: st.trace) st.file true st.dirty
                st.selected false none
            else
              let fileAfter := if st.dirty then st.file else env.manifest
              let rTr := if st.dirty then ([] : List Event) else [Event.restoreBackup]
              installPhase env a d
                (t3 ++ Event.backupManifest :: (st.trace ++ rTr ++ [Event.removeBackup]))
                fileAfter st.dirty st.selected

/-! ## Batch coordinator (lib/index.js, updatePackages) -/

/-- The batch-level environment: gh auth, the shared timestamp, the initial
working directory, and each repository's environment. -/
structure BatchEnv where
  ghLoggedIn : Bool
  timestamp : String
  cwd : String
  repoEnv : String → RepoEnv

/-- What updatePackages returns and prints: the boolean return value and the
per-repository (path, success flag) entries of the results array. -/
structure BatchResult where
  ret : Bool
  summary : List (String × Bool)
deriving DecidableEq, Repr

/-- The options object updatePackages hands to updateRepo for one
repository: shared branch name from the one timestamp, title and body from
the full requested lists. -/
def batchArgs (env : BatchEnv) (packages versions : List String) (r : String) : UpdateArgs :=
  { repoPath := r, packages := packages, versions := versions,
    branchName := "update-packages-" ++ env.timestamp,
    prTitle := "Update npm packages: " ++ mkPackageListPairs (packages.zip versions),
    prBody := mkPrBodyPairs (packages.zip versions) }

/-- The sequential per-repository loop: each updateRepo call starts in the
working directory the previous call left behind. -/
def runRepos (env : BatchEnv) (packages versions : List String) :
    String → List String → List (String × Bool)
  | _, [] => []
  | cwd, r :: rest =>
    let res := updateRepo (env.repoEnv r) (batchArgs env packages versions r) cwd
    (r, res.ret) :: runRepos env packages versions res.finalCwd rest

/-- lib/index.js updatePackages: check gh auth, validate the input shape
(matching lengths, non-empty packages, non-empty repositories) with an early
false, then run the pipeline over every repository, collect the results
array, print the summary and return true. -/
def updatePackages (env : BatchEnv) (packages versions repos : List String) : BatchResult :=
  if env.ghLoggedIn = false then ⟨false, []⟩
  else if packages.length ≠ versions.length then ⟨false, []⟩
  else if packages.length = 0 then ⟨false, []⟩
  else if repos.length = 0 then ⟨false, []⟩
  else ⟨true, runRepos env packages versions env.cwd repos⟩

/-! ## Auxiliary definitions for the theorems -/

/-- A leading range-operator character is what `stripRangeOp` removes. -/
def withOp : Option Char → String → String
  | none, s => s
  | some c, s => ⟨c :: s.data⟩

/-- Is the event a per-package manifest-edit record (the only events the
analyze loop emits). -/
def Event.isEdit : Event → Bool
  | .manifestEdit _ _ _ => true
  | _ => false

/-- A package-version pair the analyze loop selects was, at the moment of
selection, present in the manifest with a determinable current version that
compared strictly below the target. -/
def selectedSound (pv : String × String) : Prop :=
  ∃ f sec cur, packageExists f pv.1 = true ∧ getCurrentVersion f pv.1 = some (sec, cur) ∧
    versionIsHigherOrEqual cur pv.2 = Except.ok false

/-- Is the event one of the install-verification steps (node_modules
removal, forced install, regular install). -/
def Event.isInstallish : Event → Bool
  | .removeNodeModulesStep => true
  | .npmInstallForce => true
  | .npmInstallRegular => true
  | _ => false

/-- Is the event a commit. -/
def Event.isCommitEv : Event → Bool
  | .gitCommit _ => true
  | _ => false

/-- No install-verification step occurs in the list. -/
def noInstall (tr : List Event) : Prop := ∀ e ∈ tr, e.isInstallish = false

/-- No commit occurs in the list. -/
def noCommit (tr : List Event) : Prop := ∀ e ∈ tr, e.isCommitEv = false

/-! ### Concrete environments used by witnesses and counterexamples -/

/-- A repository already holding test-pkg at the requested version: the run
edits nothing, the diff probe reports no changes, the branch is cleaned up. -/
def repoEnvNoChanges : RepoEnv :=
  ⟨true, true, true, true, ManifestFile.valid ⟨some [("test-pkg", "^2.0.0")], none, none⟩,
    fun _ => true, true, true, false, true, true⟩

/-- A repository holding test-pkg at ^1.0.0: the run updates it to ^2.0.0,
both installs succeed, the diff reports changes, push and PR succeed. -/
def repoEnvSuccess : RepoEnv :=
  ⟨true, true, true, true, ManifestFile.valid ⟨some [("test-pkg", "^1.0.0")], none, none⟩,
    fun _ => true, true, true, true, true, true⟩

/-- A repository whose pull from origin/main fails (the Sync stage). -/
def repoEnvPullFails : RepoEnv :=
  ⟨true, true, false, true, ManifestFile.valid ⟨some [("test-pkg", "^1.0.0")], none, none⟩,
    fun _ => true, true, true, true, true, true⟩

/-- Batch of three repositories whose second fails at the Sync stage. -/
def batchEnvIso : BatchEnv :=
  ⟨true, "20240101000000", "/work",
    fun r => if r = "repo2" then repoEnvPullFails else repoEnvSuccess⟩

/-- Batch with a single repository that ends in the no-changes outcome. -/
def batchEnvNoChanges : BatchEnv := ⟨true, "20240101000000", "/work", fun _ => repoEnvNoChanges⟩

/-- Batch with a single repository that ends in a created pull request. -/
def batchEnvSuccess : BatchEnv := ⟨true, "20240101000000", "/work", fun _ => repoEnvSuccess⟩

/-- The preparation trace shared by every run that passes branch creation. -/
def preTr5 : List Event :=
  [Event.chdirRepo, Event.gitResetHard, Event.gitCheckoutMain, Event.gitPull,
    Event.gitCheckoutNewBranch]

/-- Repository where pkgA and pkgB are both outdated but the manifest write
for pkgA fails (its edit returns false) while pkgB's succeeds. -/
def envC5 : RepoEnv :=
  ⟨true, true, true, true,
    ManifestFile.valid ⟨some [("pkgA", "^1.0.0"), ("pkgB", "^1.0.0")], none, none⟩,
    fun p => p != "pkgA", true, true, true, true, true⟩

def argsC5 : UpdateArgs :=
  ⟨"repoC", ["pkgA", "pkgB"], ["^2.0.0", "^2.0.0"], "branch", "orig title", "orig body"⟩

/-- Repository whose manifest declares pkgP at an unparsable version, so
the comparator raises during the analyze loop. -/
def envC10 : RepoEnv :=
  ⟨true, true, true, true, ManifestFile.valid ⟨some [("pkgP", "garbage")], none, none⟩,
    fun _ => true, true, true, true, true, true⟩

def argsC10 : UpdateArgs := ⟨"repoP", ["pkgP"], ["^1.0.0"], "branch", "t", "b"⟩

/-- Repository whose manifest holds pkgQ at an unparsable version and pkgR
genuinely outdated, so the comparator fails on the first package before the
second is ever examined. -/
def envC7 : RepoEnv :=
  ⟨true, true, true, true,
    ManifestFile.valid ⟨some [("pkgQ", "garbage"), ("pkgR", "^1.0.0")], none, none⟩,
    fun _ => true, true, true, true, true, true⟩

def argsC7 : UpdateArgs :=
  ⟨"repoQ", ["pkgQ", "pkgR"], ["^1.0.0", "^2.0.0"], "branch", "t", "b"⟩


/-! ## Comparator and manifest-editor theorems -/

theorem stripRangeOp_withOp (c : Char) (s : String)
    (h : c = '^' ∨ c = '~' ∨ c = '=') : stripRangeOp (withOp (some c) s) = s := by
  rcases h with h | h | h <;> simp [withOp, stripRangeOp, stripRangeOpList, h]

theorem stripRangeOp_eq_self (s : String) (h : startsWithRangeOp s = false) :
    stripRangeOp s = s := by
  unfold stripRangeOp stripRangeOpList
  match hs : s.data with
  | [] => cases s; simp_all
  | c :: cs =>
    unfold startsWithRangeOp at h
    rw [hs] at h
    simp only [Bool.or_eq_false_iff, decide_eq_false_iff_not] at h
    cases s
    simp_all [hs]

theorem mkPackageListPairs_ne_empty (sel : List (String × String)) (h : sel ≠ []) :
    mkPackageListPairs sel ≠ "" := by
  match sel with
  | [(p, v)] =>
    intro hc
    have : (p ++ "@" ++ v).data = "".data := by rw [← hc]; rfl
    simp [String.data_append] at this
  | (p, v) :: (q :: rest) =>
    intro hc
    have : (p ++ "@" ++ v ++ ", " ++ mkPackageListPairs (q :: rest)).data = "".data := by
      rw [← hc]; rfl
    simp [String.data_append] at this

/-- C8: prefix invariance and the concrete orderings. Stripping is the
identity on strings that do not start with a range operator (in particular
bare numeric versions), so the comparator ignores any leading ^, ~ or = on
either argument; on bare versions it is numeric greater-or-equal. -/
theorem C8_prefix_invariance_and_ordering :
    (∀ (p q : Option Char) (c t : String),
      p ∈ [some '^', some '~', some '=', none] →
      q ∈ [some '^', some '~', some '=', none] →
      startsWithRangeOp c = false → startsWithRangeOp t = false →
      versionIsHigherOrEqual (withOp p c) (withOp q t) = versionIsHigherOrEqual c t) ∧
    versionIsHigherOrEqual "2.0.0" "1.0.0" = Except.ok true ∧
    versionIsHigherOrEqual "1.0.0" "2.0.0" = Except.ok false ∧
    versionIsHigherOrEqual "1.0.0" "1.0.0" = Except.ok true := by
  refine ⟨?_, by rfl, by rfl, by rfl⟩
  intro p q c t hp hq hc ht
  have hop : ∀ (r : Option Char) (s : String), r ∈ [some '^', some '~', some '=', none] →
      startsWithRangeOp s = false → stripRangeOp (withOp r s) = stripRangeOp s := by
    intro r s hr hs
    simp only [List.mem_cons, List.not_mem_nil, or_false] at hr
    rcases hr with h | h | h | h <;> subst h
    · rw [stripRangeOp_withOp '^' s (Or.inl rfl), stripRangeOp_eq_self s hs]
    · rw [stripRangeOp_withOp '~' s (Or.inr (Or.inl rfl)), stripRangeOp_eq_self s hs]
    · rw [stripRangeOp_withOp '=' s (Or.inr (Or.inr rfl)), stripRangeOp_eq_self s hs]
    · rfl
  unfold versionIsHigherOrEqual
  rw [hop p c hp hc, hop q t hq ht]

/-- Closed instance of C8 at concrete prefixed inputs. -/
theorem C8_prefix_invariance_witness :
    versionIsHigherOrEqual (withOp (some '^') "1.2.3") (withOp (some '~') "1.2.4") =
      versionIsHigherOrEqual "1.2.3" "1.2.4" :=
  C8_prefix_invariance_and_ordering.1 (some '^') (some '~') "1.2.3" "1.2.4"
    (by decide) (by decide) (by decide) (by decide)

/-- C9: updatePackageJson succeeds only when the named section is present
and already holds the package as a key; whenever it returns false the file
is untouched; and it never changes the key set of any section, so it never
adds a dependency entry (update-only semantics). -/
theorem C9_update_only_semantics (f : ManifestFile) (sec : DepSection) (pkg ver : String)
    (writeOk : Bool) :
    ((updatePackageJson f sec pkg ver writeOk).2 = true →
      ∃ m l, f = ManifestFile.valid m ∧ m.get sec = some l ∧ (l.lookup pkg).isSome) ∧
    ((updatePackageJson f sec pkg ver writeOk).2 = false →
      (updatePackageJson f sec pkg ver writeOk).1 = f) ∧
    (∀ s, sectionKeys (updatePackageJson f sec pkg ver writeOk).1 s = sectionKeys f s) := by
  have hkeys : ∀ (l : List (String × String)),
      (setKey l pkg ver).map Prod.fst = l.map Prod.fst := by
    intro l
    unfold setKey
    rw [List.map_map]
    apply List.map_congr_left
    intro p _
    by_cases h : p.1 = pkg <;> simp [h]
  match f with
  | .missing => simp [updatePackageJson]
  | .invalid => simp [updatePackageJson]
  | .valid m =>
    match hsec : m.get sec with
    | none =>
      refine ⟨?_, ?_, ?_⟩ <;> simp [updatePackageJson, hsec]
    | some l =>
      by_cases hmem : (l.lookup pkg).isSome
      · by_cases hw : writeOk
        · refine ⟨fun _ => ⟨m, l, rfl, hsec, hmem⟩, ?_, ?_⟩
          · simp [updatePackageJson, hsec, hmem, hw]
          · intro s
            simp only [updatePackageJson, hsec, hmem, hw, if_true, sectionKeys]
            rcases sec <;> rcases s <;> simp [Manifest.set, Manifest.get] at hsec ⊢ <;>
              simp [hsec, hkeys]
        · simp [updatePackageJson, hsec, hmem, hw]
      · simp [updatePackageJson, hsec, hmem]

/-- Closed instance of C9: a manifest holding the package only under
dependencies refuses an update aimed at devDependencies and keeps the file
unchanged. -/
theorem C9_update_only_witness :
    ((updatePackageJson (ManifestFile.valid ⟨some [("lodash", "^1.0.0")], none, none⟩)
        DepSection.devDependencies "lodash" "^2.0.0" true).2 = true →
      ∃ m l, ManifestFile.valid ⟨some [("lodash", "^1.0.0")], none, none⟩ = ManifestFile.valid m ∧
        m.get DepSection.devDependencies = some l ∧ (l.lookup "lodash").isSome) ∧
    ((updatePackageJson (ManifestFile.valid ⟨some [("lodash", "^1.0.0")], none, none⟩)
        DepSection.devDependencies "lodash" "^2.0.0" true).2 = false →
      (updatePackageJson (ManifestFile.valid ⟨some [("lodash", "^1.0.0")], none, none⟩)
        DepSection.devDependencies "lodash" "^2.0.0" true).1 =
        ManifestFile.valid ⟨some [("lodash", "^1.0.0")], none, none⟩) ∧
    (∀ s, sectionKeys (updatePackageJson (ManifestFile.valid ⟨some [("lodash", "^1.0.0")], none, none⟩)
        DepSection.devDependencies "lodash" "^2.0.0" true).1 s =
      sectionKeys (ManifestFile.valid ⟨some [("lodash", "^1.0.0")], none, none⟩) s) :=
  C9_update_only_semantics (ManifestFile.valid ⟨some [("lodash", "^1.0.0")], none, none⟩)
    DepSection.devDependencies "lodash" "^2.0.0" true

/-! ## Pipeline lemmas -/

theorem diffPhase_finalCwd (env : RepoEnv) (a : UpdateArgs) (d : String) (tr : List Event)
    (file : ManifestFile) (dirty : Bool) (sel : List (String × String)) :
    (diffPhase env a d tr file dirty sel).finalCwd = d := by
  cases hD : env.diffReportsChanges <;> cases hP : env.pushOk <;> cases hR : env.prOk <;>
    simp [diffPhase, mkFail, hD, hP, hR]

theorem installPhase_finalCwd (env : RepoEnv) (a : UpdateArgs) (d : String) (tr : List Event)
    (file : ManifestFile) (dirty : Bool) (sel : List (String × String)) :
    (installPhase env a d tr file dirty sel).finalCwd = d := by
  cases dirty <;> cases hF : env.forceInstallOk <;> cases hR : env.regularInstallOk <;>
    simp [installPhase, mkFail, hF, hR, diffPhase_finalCwd]

theorem updateRepo_finalCwd (env : RepoEnv) (a : UpdateArgs) (d : String) :
    (updateRepo env a d).finalCwd = d := by
  cases h1 : env.chdirOk <;> cases h2 : env.checkoutMainOk <;> cases h3 : env.pullOk <;>
    cases h4 : env.branchOk <;>
      simp [updateRepo, mkFail, h1, h2, h3, h4, installPhase_finalCwd, apply_ite
        (fun r => RepoResult.finalCwd r)]

theorem diffPhase_dirty (env : RepoEnv) (a : UpdateArgs) (d : String) (tr : List Event)
    (file : ManifestFile) (dirty : Bool) (sel : List (String × String)) :
    (diffPhase env a d tr file dirty sel).dirty = dirty := by
  cases hD : env.diffReportsChanges <;> cases hP : env.pushOk <;> cases hR : env.prOk <;>
    simp [diffPhase, mkFail, hD, hP, hR]

theorem installPhase_dirty (env : RepoEnv) (a : UpdateArgs) (d : String) (tr : List Event)
    (file : ManifestFile) (dirty : Bool) (sel : List (String × String)) :
    (installPhase env a d tr file dirty sel).dirty = dirty := by
  cases dirty <;> cases hF : env.forceInstallOk <;> cases hR : env.regularInstallOk <;>
    simp [installPhase, mkFail, hF, hR, diffPhase_dirty]

theorem diffPhase_manifest (env : RepoEnv) (a : UpdateArgs) (d : String) (tr : List Event)
    (file : ManifestFile) (dirty : Bool) (sel : List (String × String)) :
    (diffPhase env a d tr file dirty sel).manifest = file := by
  cases hD : env.diffReportsChanges <;> cases hP : env.pushOk <;> cases hR : env.prOk <;>
    simp [diffPhase, mkFail, hD, hP, hR]

theorem installPhase_manifest (env : RepoEnv) (a : UpdateArgs) (d : String) (tr : List Event)
    (file : ManifestFile) (dirty : Bool) (sel : List (String × String)) :
    (installPhase env a d tr file dirty sel).manifest = file := by
  cases dirty <;> cases hF : env.forceInstallOk <;> cases hR : env.regularInstallOk <;>
    simp [installPhase, mkFail, hF, hR, diffPhase_manifest]

theorem diffPhase_backup (env : RepoEnv) (a : UpdateArgs) (d : String) (tr : List Event)
    (file : ManifestFile) (dirty : Bool) (sel : List (String × String)) :
    (diffPhase env a d tr file dirty sel).backupPresent = false := by
  cases hD : env.diffReportsChanges <;> cases hP : env.pushOk <;> cases hR : env.prOk <;>
    simp [diffPhase, mkFail, hD, hP, hR]

theorem installPhase_backup (env : RepoEnv) (a : UpdateArgs) (d : String) (tr : List Event)
    (file : ManifestFile) (dirty : Bool) (sel : List (String × String)) :
    (installPhase env a d tr file dirty sel).backupPresent = false := by
  cases dirty <;> cases hF : env.forceInstallOk <;> cases hR : env.regularInstallOk <;>
    simp [installPhase, mkFail, hF, hR, diffPhase_backup]

theorem diffPhase_selected (env : RepoEnv) (a : UpdateArgs) (d : String) (tr : List Event)
    (file : ManifestFile) (dirty : Bool) (sel : List (String × String)) :
    (diffPhase env a d tr file dirty sel).selected = sel := by
  cases hD : env.diffReportsChanges <;> cases hP : env.pushOk <;> cases hR : env.prOk <;>
    simp [diffPhase, mkFail, hD, hP, hR]

theorem installPhase_selected (env : RepoEnv) (a : UpdateArgs) (d : String) (tr : List Event)
    (file : ManifestFile) (dirty : Bool) (sel : List (String × String)) :
    (installPhase env a d tr file dirty sel).selected = sel := by
  cases dirty <;> cases hF : env.forceInstallOk <;> cases hR : env.regularInstallOk <;>
    simp [installPhase, mkFail, hF, hR, diffPhase_selected]

theorem analyzeLoop_trace_edits (env : RepoEnv) (l : List (String × String))
    (st : AnalyzeState) (h : ∀ e ∈ st.trace, e.isEdit = true) :
    ∀ e ∈ (analyzeLoop env st l).1.trace, e.isEdit = true := by
  induction l generalizing st with
  | nil => exact h
  | cons pv rest ih =>
    obtain ⟨pkg, ver⟩ := pv
    unfold analyzeLoop
    split
    · exact ih st h
    · split
      · exact ih st h
      · split
        · exact h
        · exact ih st h
        · apply ih
          intro e he
          simp only [List.mem_append, List.mem_singleton] at he
          rcases he with he | he
          · exact h e he
          · simp [he, Event.isEdit]

theorem analyzeOf_trace_edits (env : RepoEnv) (a : UpdateArgs) :
    ∀ e ∈ (analyzeOf env a).1.trace, e.isEdit = true := by
  apply analyzeLoop_trace_edits
  intro e he
  simp [AnalyzeState.trace] at he

theorem analyzeLoop_selected_sound (env : RepoEnv) (l : List (String × String))
    (st : AnalyzeState) (h : ∀ pv ∈ st.selected, selectedSound pv) :
    ∀ pv ∈ (analyzeLoop env st l).1.selected, selectedSound pv := by
  induction l generalizing st with
  | nil => exact h
  | cons pv0 rest ih =>
    obtain ⟨pkg, ver⟩ := pv0
    unfold analyzeLoop
    split
    · exact ih st h
    · rename_i hex
      split
      · exact ih st h
      · rename_i sec cur hcur
        split
        · exact h
        · exact ih st h
        · rename_i hcmp
          apply ih
          intro pv hpv
          simp only [List.mem_append, List.mem_singleton] at hpv
          rcases hpv with hpv | hpv
          · exact h pv hpv
          · subst hpv
            refine ⟨st.file, sec, cur, ?_, hcur, hcmp⟩
            simpa using hex

theorem analyzeOf_selected_sound (env : RepoEnv) (a : UpdateArgs) :
    ∀ pv ∈ (analyzeOf env a).1.selected, selectedSound pv := by
  apply analyzeLoop_selected_sound
  intro pv hpv
  simp [AnalyzeState.selected] at hpv

/-! ### Trace classification -/

theorem noCommit_not_mem (tr : List Event) (h : noCommit tr) (m : String) :
    Event.gitCommit m ∉ tr := by
  intro hm
  have := h _ hm
  simp [Event.isCommitEv] at this

theorem noInstall_not_mem (tr : List Event) (h : noInstall tr) (e : Event)
    (he : e.isInstallish = true) : e ∉ tr := by
  intro hm
  rw [h e hm] at he
  cases he

theorem analyzeOf_noInstall (env : RepoEnv) (a : UpdateArgs) :
    noInstall (analyzeOf env a).1.trace := by
  intro e he
  obtain h := analyzeOf_trace_edits env a e he
  cases e <;> simp_all [Event.isEdit, Event.isInstallish]

theorem analyzeOf_noCommit (env : RepoEnv) (a : UpdateArgs) :
    noCommit (analyzeOf env a).1.trace := by
  intro e he
  obtain h := analyzeOf_trace_edits env a e he
  cases e <;> simp_all [Event.isEdit, Event.isCommitEv]

/-- The analyze loop leaves a missing manifest untouched and selects
nothing: every package resolves to not-found. -/
theorem analyzeLoop_missing (env : RepoEnv) (l : List (String × String)) (st : AnalyzeState)
    (h : st.file = ManifestFile.missing) : analyzeLoop env st l = (st, false) := by
  induction l generalizing st with
  | nil => rfl
  | cons pv rest ih =>
    obtain ⟨pkg, ver⟩ := pv
    unfold analyzeLoop
    rw [h]
    exact ih st h

theorem analyzeOf_missing (env : RepoEnv) (a : UpdateArgs)
    (h : env.manifest = ManifestFile.missing) :
    analyzeOf env a = (⟨env.manifest, false, [], []⟩, false) :=
  analyzeLoop_missing env _ _ h

/-- Every run of updateRepo either ends on an early-failure exit whose trace
holds no install step and no commit, or reaches the install-verification
phase with such a prefix trace, carrying exactly the analyze loop's dirty
flag and selection. -/
theorem updateRepo_cases (env : RepoEnv) (a : UpdateArgs) (d : String) :
    (∃ tr file bak dirty sel, noInstall tr ∧ noCommit tr ∧
      (sel = [] ∨ sel = (analyzeOf env a).1.selected) ∧
      updateRepo env a d = mkFail d tr file bak dirty sel false none) ∨
    (∃ tr file, noInstall tr ∧ noCommit tr ∧
      updateRepo env a d =
        installPhase env a d tr file (analyzeOf env a).1.dirty (analyzeOf env a).1.selected) := by
  by_cases h1 : env.chdirOk = false
  · refine Or.inl ⟨[], env.manifest, false, false, [], ?_, ?_, Or.inl rfl, by simp [updateRepo, h1]⟩ <;>
      intro e he <;> simp at he
  by_cases h2 : env.checkoutMainOk = false
  · refine Or.inl ⟨[Event.chdirRepo, Event.gitResetHard, Event.gitCheckoutMain],
      env.manifest, false, false, [], ?_, ?_, Or.inl rfl, by simp [updateRepo, h1, h2]⟩ <;>
      (intro e he;
       simp only [List.mem_cons, List.not_mem_nil, or_false] at he;
       rcases he with rfl | rfl | rfl <;> rfl)
  by_cases h3 : env.pullOk = false
  · refine Or.inl ⟨[Event.chdirRepo, Event.gitResetHard, Event.gitCheckoutMain, Event.gitPull],
      env.manifest, false, false, [], ?_, ?_, Or.inl rfl, by simp [updateRepo, h1, h2, h3]⟩ <;>
      (intro e he;
       simp only [List.mem_cons, List.not_mem_nil, or_false] at he;
       rcases he with rfl | rfl | rfl | rfl <;> rfl)
  by_cases h4 : env.branchOk = false
  · refine Or.inl ⟨[Event.chdirRepo, Event.gitResetHard, Event.gitCheckoutMain, Event.gitPull,
      Event.gitCheckoutNewBranch],
      env.manifest, false, false, [], ?_, ?_, Or.inl rfl, by simp [updateRepo, h1, h2, h3, h4]⟩ <;>
      (intro e he;
       simp only [List.mem_cons, List.not_mem_nil, or_false] at he;
       rcases he with rfl | rfl | rfl | rfl | rfl <;> rfl)
  by_cases hm : env.manifest = ManifestFile.missing
  · refine Or.inr ⟨[Event.chdirRepo, Event.gitResetHard, Event.gitCheckoutMain, Event.gitPull,
      Event.gitCheckoutNewBranch], env.manifest, ?_, ?_, ?_⟩
    · intro e he
      simp only [List.mem_cons, List.not_mem_nil, or_false] at he
      rcases he with rfl | rfl | rfl | rfl | rfl <;> rfl
    · intro e he
      simp only [List.mem_cons, List.not_mem_nil, or_false] at he
      rcases he with rfl | rfl | rfl | rfl | rfl <;> rfl
    · rw [analyzeOf_missing env a hm]
      simp [updateRepo, h1, h2, h3, h4, hm]
  by_cases hth : (analyzeOf env a).2 = true
  · refine Or.inl ⟨[Event.chdirRepo, Event.gitResetHard, Event.gitCheckoutMain, Event.gitPull,
      Event.gitCheckoutNewBranch] ++ Event.backupManifest :: (analyzeOf env a).1.trace,
      (analyzeOf env a).1.file, true, (analyzeOf env a).1.dirty, (analyzeOf env a).1.selected,
      ?_, ?_, Or.inr rfl, by simp [updateRepo, h1, h2, h3, h4, hm, hth]⟩
    · intro e he
      simp only [List.mem_append, List.mem_cons, List.not_mem_nil, or_false] at he
      rcases he with (rfl | rfl | rfl | rfl | rfl) | rfl | he
      iterate 6 rfl
      exact analyzeOf_noInstall env a e he
    · intro e he
      simp only [List.mem_append, List.mem_cons, List.not_mem_nil, or_false] at he
      rcases he with (rfl | rfl | rfl | rfl | rfl) | rfl | he
      iterate 6 rfl
      exact analyzeOf_noCommit env a e he
  · refine Or.inr ⟨[Event.chdirRepo, Event.gitResetHard, Event.gitCheckoutMain, Event.gitPull,
      Event.gitCheckoutNewBranch] ++ Event.backupManifest ::
        ((analyzeOf env a).1.trace ++
          (if (analyzeOf env a).1.dirty then ([] : List Event) else [Event.restoreBackup]) ++
          [Event.removeBackup]),
      (if (analyzeOf env a).1.dirty then (analyzeOf env a).1.file else env.manifest), ?_, ?_, ?_⟩
    · intro e he
      simp only [List.mem_append, List.mem_cons, List.not_mem_nil, or_false] at he
      rcases he with (rfl | rfl | rfl | rfl | rfl) | rfl | (he | he) | rfl
      iterate 6 rfl
      · exact analyzeOf_noInstall env a e he
      · split at he
        · simp at he
        · simp only [List.mem_cons, List.not_mem_nil, or_false] at he
          subst he
          rfl
      · rfl
    · intro e he
      simp only [List.mem_append, List.mem_cons, List.not_mem_nil, or_false] at he
      rcases he with (rfl | rfl | rfl | rfl | rfl) | rfl | (he | he) | rfl
      iterate 6 rfl
      · exact analyzeOf_noCommit env a e he
      · split at he
        · simp at he
        · simp only [List.mem_cons, List.not_mem_nil, or_false] at he
          subst he
          rfl
      · rfl
    · simp only [Bool.not_eq_true] at hth
      cases hd : (analyzeOf env a).1.dirty <;>
        simp [updateRepo, h1, h2, h3, h4, hm, hth, hd]

/-! ## C1: working-directory restoration -/

/-- C1: updateRepo restores the caller's working directory on every exit
path: successful completion, every stage-failure early return, and the
modelled unexpected exceptions (a failing chdir into the repository, a
version-comparator exception escaping the analyze loop) that reach the
top-level catch. -/
theorem C1_working_directory_restored (env : RepoEnv) (a : UpdateArgs) (d : String) :
    (updateRepo env a d).finalCwd = d :=
  updateRepo_finalCwd env a d

/-! ## Batch coordinator lemmas and theorems -/

theorem runRepos_eq_map (env : BatchEnv) (packages versions : List String)
    (d : String) (repos : List String) :
    runRepos env packages versions d repos =
      repos.map fun r =>
        (r, (updateRepo (env.repoEnv r) (batchArgs env packages versions r) d).ret) := by
  induction repos generalizing d with
  | nil => rfl
  | cons r rest ih =>
    simp only [runRepos, updateRepo_finalCwd, List.map_cons]
    rw [ih]

/-- C2: with the batch preconditions satisfied, the coordinator's summary
has exactly one entry per input repository, in input order, and each entry's
outcome is the pipeline's result for that repository alone — so one
repository's failure cannot prevent or change the processing of any later
repository. -/
theorem C2_isolation_and_order (env : BatchEnv) (packages versions repos : List String)
    (h1 : env.ghLoggedIn = true) (h2 : packages.length = versions.length)
    (h3 : packages ≠ []) (h4 : repos ≠ []) :
    (updatePackages env packages versions repos).summary =
      repos.map (fun r =>
        (r, (updateRepo (env.repoEnv r) (batchArgs env packages versions r) env.cwd).ret)) ∧
    ((updatePackages env packages versions repos).summary.map Prod.fst = repos) := by
  have hlen3 : packages.length ≠ 0 := by
    simpa using fun hh => h3 (List.length_eq_zero.mp hh)
  have hlen4 : repos.length ≠ 0 := by
    simpa using fun hh => h4 (List.length_eq_zero.mp hh)
  have hv : versions ≠ [] := by
    intro hh
    subst hh
    exact hlen3 (by simpa using h2)
  constructor
  · simp [updatePackages, h1, h2, hlen3, hlen4, hv, runRepos_eq_map]
  · simp only [updatePackages, h1, h2, hlen3, hlen4, hv, runRepos_eq_map]
    simp [updatePackages, h1, h2, hlen3, hlen4, hv, runRepos_eq_map]
    exact List.map_id repos

/-- Closed instance of C2: three repositories, the second failing at Sync;
the summary lists all three in order, the middle one false. -/
theorem C2_isolation_witness :
    (updatePackages batchEnvIso ["test-pkg"] ["^2.0.0"] ["repo1", "repo2", "repo3"]).summary =
      (["repo1", "repo2", "repo3"].map fun r =>
        (r, (updateRepo (batchEnvIso.repoEnv r)
          (batchArgs batchEnvIso ["test-pkg"] ["^2.0.0"] r) batchEnvIso.cwd).ret)) ∧
    ((updatePackages batchEnvIso ["test-pkg"] ["^2.0.0"] ["repo1", "repo2", "repo3"]).summary.map
      Prod.fst = ["repo1", "repo2", "repo3"]) :=
  C2_isolation_and_order batchEnvIso ["test-pkg"] ["^2.0.0"] ["repo1", "repo2", "repo3"]
    rfl rfl (by decide) (by decide)

/-- C6 counterexample: updatePackages records the same summary entry,
(repo, true), for a run that created a pull request and for a run that made
no changes and deleted its branch, and its whole return value coincides on
the two — so the returned value does not distinguish success from
no-changes and carries no applied-package list or PR reference for the
success. -/
theorem C6_counterexample_summary_blind :
    updatePackages batchEnvNoChanges ["test-pkg"] ["^2.0.0"] ["repo1"] =
      updatePackages batchEnvSuccess ["test-pkg"] ["^2.0.0"] ["repo1"] ∧
    (updateRepo repoEnvNoChanges
      (batchArgs batchEnvNoChanges ["test-pkg"] ["^2.0.0"] "repo1") "/work").prCreated = false ∧
    (updateRepo repoEnvNoChanges
      (batchArgs batchEnvNoChanges ["test-pkg"] ["^2.0.0"] "repo1") "/work").branchDeleted = true ∧
    (updateRepo repoEnvSuccess
      (batchArgs batchEnvSuccess ["test-pkg"] ["^2.0.0"] "repo1") "/work").prCreated = true ∧
    (updateRepo repoEnvSuccess
      (batchArgs batchEnvSuccess ["test-pkg"] ["^2.0.0"] "repo1") "/work").selected =
      [("test-pkg", "^2.0.0")] := by
  refine ⟨by decide, by decide, by decide, by decide, by decide⟩

/-- C6 amended: under the batch preconditions updatePackages returns the
boolean true together with a summary holding one (repository, boolean)
entry per input repository in order, the boolean being exactly the
pipeline's own boolean return for that repository (true both for a created
PR and for a no-changes run); no per-repository package list or PR
reference is part of the returned value. -/
theorem C6_amended_batch_return (env : BatchEnv) (packages versions repos : List String)
    (h1 : env.ghLoggedIn = true) (h2 : packages.length = versions.length)
    (h3 : packages ≠ []) (h4 : repos ≠ []) :
    (updatePackages env packages versions repos).ret = true ∧
    (updatePackages env packages versions repos).summary.length = repos.length ∧
    ∀ pr ∈ (updatePackages env packages versions repos).summary,
      pr.2 = (updateRepo (env.repoEnv pr.1) (batchArgs env packages versions pr.1) env.cwd).ret := by
  have hlen3 : packages.length ≠ 0 := by
    simpa using fun hh => h3 (List.length_eq_zero.mp hh)
  have hlen4 : repos.length ≠ 0 := by
    simpa using fun hh => h4 (List.length_eq_zero.mp hh)
  have hv : versions ≠ [] := by
    intro hh
    subst hh
    exact hlen3 (by simpa using h2)
  refine ⟨by simp [updatePackages, h1, h2, hlen3, hlen4, hv], ?_, ?_⟩
  · simp [updatePackages, h1, h2, hlen3, hlen4, hv, runRepos_eq_map]
  · intro pr hpr
    have hsum : (updatePackages env packages versions repos).summary =
        repos.map (fun r =>
          (r, (updateRepo (env.repoEnv r) (batchArgs env packages versions r) env.cwd).ret)) := by
      simp [updatePackages, h1, h2, hlen3, hlen4, hv, runRepos_eq_map]
    rw [hsum] at hpr
    rcases List.mem_map.mp hpr with ⟨r, _, hr⟩
    subst hr
    rfl

/-- Closed instance of the amended C6 over the isolation batch. -/
theorem C6_amended_witness :
    (updatePackages batchEnvIso ["test-pkg"] ["^2.0.0"] ["repo1", "repo2", "repo3"]).ret = true ∧
    (updatePackages batchEnvIso ["test-pkg"] ["^2.0.0"] ["repo1", "repo2", "repo3"]).summary.length =
      (["repo1", "repo2", "repo3"] : List String).length ∧
    ∀ pr ∈ (updatePackages batchEnvIso ["test-pkg"] ["^2.0.0"] ["repo1", "repo2", "repo3"]).summary,
      pr.2 = (updateRepo (batchEnvIso.repoEnv pr.1)
        (batchArgs batchEnvIso ["test-pkg"] ["^2.0.0"] pr.1) batchEnvIso.cwd).ret :=
  C6_amended_batch_return batchEnvIso ["test-pkg"] ["^2.0.0"] ["repo1", "repo2", "repo3"]
    rfl rfl (by decide) (by decide)

/-- Closed instance of C1 on the full success environment. -/
theorem C1_working_directory_witness :
    (updateRepo repoEnvSuccess
      (batchArgs batchEnvSuccess ["test-pkg"] ["^2.0.0"] "repo1") "/work").finalCwd = "/work" :=
  C1_working_directory_restored repoEnvSuccess
    (batchArgs batchEnvSuccess ["test-pkg"] ["^2.0.0"] "repo1") "/work"

/-! ### Phase equations -/

theorem diffPhase_noChanges_eq (env : RepoEnv) (a : UpdateArgs) (d : String) (tr : List Event)
    (file : ManifestFile) (dirty : Bool) (sel : List (String × String))
    (hD : env.diffReportsChanges = false) :
    diffPhase env a d tr file dirty sel =
      { ret := true, finalCwd := d,
        trace := tr ++ [Event.gitDiffCheck, Event.gitCheckoutMainCleanup,
          Event.gitBranchDelete, Event.chdirOriginal],
        manifest := file, backupPresent := false, dirty := dirty, selected := sel,
        committed := false, commitMsg := none, prCreated := false, prInfo := none,
        branchDeleted := true } := by
  simp [diffPhase, hD]

theorem diffPhase_pushFail_eq (env : RepoEnv) (a : UpdateArgs) (d : String) (tr : List Event)
    (file : ManifestFile) (dirty : Bool) (sel : List (String × String))
    (hD : env.diffReportsChanges = true) (hP : env.pushOk = false) :
    diffPhase env a d tr file dirty sel =
      mkFail d (tr ++ [Event.gitDiffCheck, Event.gitAddFiles,
          Event.gitCommit (finalTitle a sel), Event.gitPush])
        file false dirty sel true (some (finalTitle a sel)) := by
  simp [diffPhase, hD, hP]

theorem diffPhase_prFail_eq (env : RepoEnv) (a : UpdateArgs) (d : String) (tr : List Event)
    (file : ManifestFile) (dirty : Bool) (sel : List (String × String))
    (hD : env.diffReportsChanges = true) (hP : env.pushOk = true) (hR : env.prOk = false) :
    diffPhase env a d tr file dirty sel =
      mkFail d (tr ++ [Event.gitDiffCheck, Event.gitAddFiles,
          Event.gitCommit (finalTitle a sel), Event.gitPush,
          Event.ghPrCreate (finalTitle a sel) (finalBody a sel)])
        file false dirty sel true (some (finalTitle a sel)) := by
  simp [diffPhase, hD, hP, hR]

theorem diffPhase_success_eq (env : RepoEnv) (a : UpdateArgs) (d : String) (tr : List Event)
    (file : ManifestFile) (dirty : Bool) (sel : List (String × String))
    (hD : env.diffReportsChanges = true) (hP : env.pushOk = true) (hR : env.prOk = true) :
    diffPhase env a d tr file dirty sel =
      { ret := true, finalCwd := d,
        trace := tr ++ [Event.gitDiffCheck, Event.gitAddFiles,
          Event.gitCommit (finalTitle a sel), Event.gitPush,
          Event.ghPrCreate (finalTitle a sel) (finalBody a sel), Event.chdirOriginal],
        manifest := file, backupPresent := false, dirty := dirty, selected := sel,
        committed := true, commitMsg := some (finalTitle a sel), prCreated := true,
        prInfo := some (finalTitle a sel, finalBody a sel), branchDeleted := false } := by
  simp [diffPhase, hD, hP, hR]

theorem installPhase_notDirty_eq (env : RepoEnv) (a : UpdateArgs) (d : String) (tr : List Event)
    (file : ManifestFile) (sel : List (String × String)) :
    installPhase env a d tr file false sel = diffPhase env a d tr file false sel := by
  simp [installPhase]

theorem installPhase_forceFail_eq (env : RepoEnv) (a : UpdateArgs) (d : String) (tr : List Event)
    (file : ManifestFile) (sel : List (String × String)) (hF : env.forceInstallOk = false) :
    installPhase env a d tr file true sel =
      mkFail d (tr ++ [Event.removeNodeModulesStep, Event.npmInstallForce])
        file false true sel false none := by
  simp [installPhase, hF]

theorem installPhase_regFail_eq (env : RepoEnv) (a : UpdateArgs) (d : String) (tr : List Event)
    (file : ManifestFile) (sel : List (String × String)) (hF : env.forceInstallOk = true)
    (hR : env.regularInstallOk = false) :
    installPhase env a d tr file true sel =
      mkFail d (tr ++ [Event.removeNodeModulesStep, Event.npmInstallForce,
          Event.removeNodeModulesStep, Event.npmInstallRegular])
        file false true sel false none := by
  simp [installPhase, hF, hR]

theorem installPhase_ok_eq (env : RepoEnv) (a : UpdateArgs) (d : String) (tr : List Event)
    (file : ManifestFile) (sel : List (String × String)) (hF : env.forceInstallOk = true)
    (hR : env.regularInstallOk = true) :
    installPhase env a d tr file true sel =
      diffPhase env a d (tr ++ [Event.removeNodeModulesStep, Event.npmInstallForce,
        Event.removeNodeModulesStep, Event.npmInstallRegular]) file true sel := by
  simp [installPhase, hF, hR]

theorem diffPhase_trace_decomp (env : RepoEnv) (a : UpdateArgs) (d : String) (tr : List Event)
    (file : ManifestFile) (dirty : Bool) (sel : List (String × String)) :
    ∃ rest, (diffPhase env a d tr file dirty sel).trace = tr ++ rest ∧
      Event.gitDiffCheck ∈ rest ∧ noInstall rest := by
  by_cases hD : env.diffReportsChanges = false
  · rw [diffPhase_noChanges_eq env a d tr file dirty sel hD]
    refine ⟨_, rfl, by simp, ?_⟩
    intro e he
    simp only [List.mem_cons, List.not_mem_nil, or_false] at he
    rcases he with rfl | rfl | rfl | rfl <;> rfl
  · rw [Bool.not_eq_false] at hD
    by_cases hP : env.pushOk = false
    · rw [diffPhase_pushFail_eq env a d tr file dirty sel hD hP]
      refine ⟨[Event.gitDiffCheck, Event.gitAddFiles, Event.gitCommit (finalTitle a sel),
        Event.gitPush, Event.chdirOriginal], by simp [mkFail], by simp, ?_⟩
      intro e he
      simp only [List.mem_cons, List.not_mem_nil, or_false] at he
      rcases he with rfl | rfl | rfl | rfl | rfl <;> rfl
    · rw [Bool.not_eq_false] at hP
      by_cases hR : env.prOk = false
      · rw [diffPhase_prFail_eq env a d tr file dirty sel hD hP hR]
        refine ⟨[Event.gitDiffCheck, Event.gitAddFiles, Event.gitCommit (finalTitle a sel),
          Event.gitPush, Event.ghPrCreate (finalTitle a sel) (finalBody a sel),
          Event.chdirOriginal], by simp [mkFail], by simp, ?_⟩
        intro e he
        simp only [List.mem_cons, List.not_mem_nil, or_false] at he
        rcases he with rfl | rfl | rfl | rfl | rfl | rfl <;> rfl
      · rw [Bool.not_eq_false] at hR
        rw [diffPhase_success_eq env a d tr file dirty sel hD hP hR]
        refine ⟨_, rfl, by simp, ?_⟩
        intro e he
        simp only [List.mem_cons, List.not_mem_nil, or_false] at he
        rcases he with rfl | rfl | rfl | rfl | rfl | rfl <;> rfl

theorem installPhase_trace_decomp (env : RepoEnv) (a : UpdateArgs) (d : String) (tr : List Event)
    (file : ManifestFile) (dirty : Bool) (sel : List (String × String)) :
    ∃ rest, (installPhase env a d tr file dirty sel).trace = tr ++ rest := by
  cases dirty
  · rw [installPhase_notDirty_eq]
    obtain ⟨rest, hrest, -, -⟩ := diffPhase_trace_decomp env a d tr file false sel
    exact ⟨rest, hrest⟩
  · by_cases hF : env.forceInstallOk = false
    · rw [installPhase_forceFail_eq env a d tr file sel hF]
      exact ⟨[Event.removeNodeModulesStep, Event.npmInstallForce, Event.chdirOriginal],
        by simp [mkFail]⟩
    · rw [Bool.not_eq_false] at hF
      by_cases hR : env.regularInstallOk = false
      · rw [installPhase_regFail_eq env a d tr file sel hF hR]
        exact ⟨[Event.removeNodeModulesStep, Event.npmInstallForce,
          Event.removeNodeModulesStep, Event.npmInstallRegular, Event.chdirOriginal],
          by simp [mkFail]⟩
      · rw [Bool.not_eq_false] at hR
        rw [installPhase_ok_eq env a d tr file sel hF hR]
        obtain ⟨rest, hrest, -, -⟩ := diffPhase_trace_decomp env a d _ file true sel
        exact ⟨_, by rw [hrest, List.append_assoc]⟩

/-- The good-path equation: when every preparation stage succeeds and the
analyze loop completes without a comparator exception, updateRepo hands the
analyze outcome to the install-verification phase, restoring the backed-up
manifest exactly when nothing was updated. -/
theorem updateRepo_good_eq (env : RepoEnv) (a : UpdateArgs) (d : String)
    (h1 : env.chdirOk = true) (h2 : env.checkoutMainOk = true) (h3 : env.pullOk = true)
    (h4 : env.branchOk = true) (h5 : (analyzeOf env a).2 = false) :
    updateRepo env a d =
      if env.manifest = ManifestFile.missing then
        installPhase env a d preTr5 env.manifest false []
      else
        installPhase env a d
          (preTr5 ++ Event.backupManifest ::
            ((analyzeOf env a).1.trace ++
              (if (analyzeOf env a).1.dirty then ([] : List Event) else [Event.restoreBackup]) ++
              [Event.removeBackup]))
          (if (analyzeOf env a).1.dirty then (analyzeOf env a).1.file else env.manifest)
          (analyzeOf env a).1.dirty (analyzeOf env a).1.selected := by
  by_cases hm : env.manifest = ManifestFile.missing
  · simp [updateRepo, h1, h2, h3, h4, hm, preTr5]
  · cases hd : (analyzeOf env a).1.dirty <;>
      simp [updateRepo, h1, h2, h3, h4, hm, h5, hd, preTr5]

theorem noInstall_append (t1 t2 : List Event) (h1 : noInstall t1) (h2 : noInstall t2) :
    noInstall (t1 ++ t2) := by
  intro e he
  rcases List.mem_append.mp he with h | h
  · exact h1 e h
  · exact h2 e h

theorem noCommit_append (t1 t2 : List Event) (h1 : noCommit t1) (h2 : noCommit t2) :
    noCommit (t1 ++ t2) := by
  intro e he
  rcases List.mem_append.mp he with h | h
  · exact h1 e h
  · exact h2 e h

theorem mkFail_no_install (d : String) (tr : List Event) (file : ManifestFile)
    (bak dirty : Bool) (sel : List (String × String)) (committed : Bool) (cm : Option String)
    (hNI : noInstall tr) (e : Event) (he : e.isInstallish = true) :
    e ∉ (mkFail d tr file bak dirty sel committed cm).trace := by
  intro hmem
  simp only [mkFail, List.mem_append, List.mem_cons, List.not_mem_nil, or_false] at hmem
  rcases hmem with h | rfl
  · rw [hNI _ h] at he
    cases he
  · simp [Event.isInstallish] at he

theorem mkFail_no_commit (d : String) (tr : List Event) (file : ManifestFile)
    (bak dirty : Bool) (sel : List (String × String)) (committed : Bool) (cm : Option String)
    (hNC : noCommit tr) (m : String) :
    Event.gitCommit m ∉ (mkFail d tr file bak dirty sel committed cm).trace := by
  intro hmem
  simp only [mkFail, List.mem_append, List.mem_cons, List.not_mem_nil, or_false] at hmem
  rcases hmem with h | h
  · have := hNC _ h
    simp [Event.isCommitEv] at this
  · cases h

/-- Change-detection behavior over a commit-free prefix: the diff probe is
always in the trace, and a no-changes verdict yields the cleaned-up,
commit-free, PR-free success outcome. -/
theorem diffPhase_c4 (env : RepoEnv) (a : UpdateArgs) (d : String) (tr : List Event)
    (file : ManifestFile) (dirty : Bool) (sel : List (String × String)) (hNC : noCommit tr) :
    Event.gitDiffCheck ∈ (diffPhase env a d tr file dirty sel).trace ∧
    (env.diffReportsChanges = false →
      (diffPhase env a d tr file dirty sel).ret = true ∧
      (diffPhase env a d tr file dirty sel).committed = false ∧
      (diffPhase env a d tr file dirty sel).prCreated = false ∧
      (diffPhase env a d tr file dirty sel).branchDeleted = true ∧
      Event.gitCheckoutMainCleanup ∈ (diffPhase env a d tr file dirty sel).trace ∧
      Event.gitBranchDelete ∈ (diffPhase env a d tr file dirty sel).trace ∧
      (∀ m, Event.gitCommit m ∉ (diffPhase env a d tr file dirty sel).trace)) := by
  constructor
  · obtain ⟨rest, hrest, hdm, -⟩ := diffPhase_trace_decomp env a d tr file dirty sel
    rw [hrest]
    exact List.mem_append.mpr (Or.inr hdm)
  · intro hD
    rw [diffPhase_noChanges_eq env a d tr file dirty sel hD]
    refine ⟨rfl, rfl, rfl, rfl, by simp, by simp, ?_⟩
    intro m hmem
    simp only [List.mem_append, List.mem_cons, List.not_mem_nil, or_false] at hmem
    rcases hmem with h | h | h | h | h
    · have := hNC _ h
      simp [Event.isCommitEv] at this
    · cases h
    · cases h
    · cases h
    · cases h

/-- Commit/PR text over a non-empty selection: whenever the run commits,
the message is derived exactly from the selected packages, and whenever it
opens a PR, the title and body are as well. -/
theorem diffPhase_c5 (env : RepoEnv) (a : UpdateArgs) (d : String) (tr : List Event)
    (file : ManifestFile) (dirty : Bool) (sel : List (String × String)) (hne : sel ≠ []) :
    ((diffPhase env a d tr file dirty sel).committed = true →
      (diffPhase env a d tr file dirty sel).commitMsg =
        some ("Update npm packages: " ++ mkPackageListPairs sel)) ∧
    ((diffPhase env a d tr file dirty sel).prCreated = true →
      (diffPhase env a d tr file dirty sel).prInfo =
        some ("Update npm packages: " ++ mkPackageListPairs sel, mkPrBodyPairs sel)) := by
  have hfT : finalTitle a sel = "Update npm packages: " ++ mkPackageListPairs sel := by
    simp [finalTitle, mkPackageListPairs_ne_empty sel hne]
  have hfB : finalBody a sel = mkPrBodyPairs sel := by
    simp [finalBody, mkPackageListPairs_ne_empty sel hne]
  by_cases hD : env.diffReportsChanges = false
  · rw [diffPhase_noChanges_eq env a d tr file dirty sel hD]
    exact ⟨fun h => (Bool.false_ne_true h).elim, fun h => (Bool.false_ne_true h).elim⟩
  · rw [Bool.not_eq_false] at hD
    by_cases hP : env.pushOk = false
    · rw [diffPhase_pushFail_eq env a d tr file dirty sel hD hP]
      exact ⟨fun _ => (by rw [mkFail, hfT]), fun h => (Bool.false_ne_true h).elim⟩
    · rw [Bool.not_eq_false] at hP
      by_cases hR : env.prOk = false
      · rw [diffPhase_prFail_eq env a d tr file dirty sel hD hP hR]
        exact ⟨fun _ => (by rw [mkFail, hfT]), fun h => (Bool.false_ne_true h).elim⟩
      · rw [Bool.not_eq_false] at hR
        rw [diffPhase_success_eq env a d tr file dirty sel hD hP hR]
        exact ⟨fun _ => (by rw [hfT]), fun _ => (by rw [hfT, hfB])⟩

/-- Commit/PR text through the install phase. -/
theorem installPhase_c5 (env : RepoEnv) (a : UpdateArgs) (d : String) (tr : List Event)
    (file : ManifestFile) (dirty : Bool) (sel : List (String × String)) (hne : sel ≠ []) :
    ((installPhase env a d tr file dirty sel).committed = true →
      (installPhase env a d tr file dirty sel).commitMsg =
        some ("Update npm packages: " ++ mkPackageListPairs sel)) ∧
    ((installPhase env a d tr file dirty sel).prCreated = true →
      (installPhase env a d tr file dirty sel).prInfo =
        some ("Update npm packages: " ++ mkPackageListPairs sel, mkPrBodyPairs sel)) := by
  cases dirty
  · rw [installPhase_notDirty_eq]
    exact diffPhase_c5 env a d tr file false sel hne
  · by_cases hF : env.forceInstallOk = false
    · rw [installPhase_forceFail_eq env a d tr file sel hF]
      exact ⟨fun h => (Bool.false_ne_true h).elim, fun h => (Bool.false_ne_true h).elim⟩
    · rw [Bool.not_eq_false] at hF
      by_cases hR : env.regularInstallOk = false
      · rw [installPhase_regFail_eq env a d tr file sel hF hR]
        exact ⟨fun h => (Bool.false_ne_true h).elim, fun h => (Bool.false_ne_true h).elim⟩
      · rw [Bool.not_eq_false] at hR
        rw [installPhase_ok_eq env a d tr file sel hF hR]
        exact diffPhase_c5 env a d _ file true sel hne

/-- C3: the install-verification phases run only when some manifest edit
succeeded (the dirty flag); each npm install invocation is immediately
preceded in the run's trace by the node_modules-removal step; and a failing
forced install aborts the run as failed with the regular install never
invoked, no commit made and no pull request created. -/
theorem C3_two_phase_install_verification (env : RepoEnv) (a : UpdateArgs) (d : String) :
    ((Event.npmInstallForce ∈ (updateRepo env a d).trace ∨
        Event.npmInstallRegular ∈ (updateRepo env a d).trace) →
      (updateRepo env a d).dirty = true) ∧
    (Event.npmInstallForce ∈ (updateRepo env a d).trace →
      ∃ l1 l2, (updateRepo env a d).trace =
        l1 ++ Event.removeNodeModulesStep :: Event.npmInstallForce :: l2) ∧
    (Event.npmInstallRegular ∈ (updateRepo env a d).trace →
      ∃ l1 l2, (updateRepo env a d).trace =
        l1 ++ Event.removeNodeModulesStep :: Event.npmInstallRegular :: l2) ∧
    (env.forceInstallOk = false → Event.npmInstallForce ∈ (updateRepo env a d).trace →
      (updateRepo env a d).ret = false ∧
      Event.npmInstallRegular ∉ (updateRepo env a d).trace ∧
      (∀ m, Event.gitCommit m ∉ (updateRepo env a d).trace) ∧
      (updateRepo env a d).committed = false ∧
      (updateRepo env a d).prCreated = false) := by
  rcases updateRepo_cases env a d with
    ⟨tr, file, bak, dirty, sel, hNI, hNC, hsel, heq⟩ | ⟨tr, file, hNI, hNC, heq⟩
  · rw [heq]
    have hf := mkFail_no_install d tr file bak dirty sel false none hNI
      Event.npmInstallForce rfl
    have hr := mkFail_no_install d tr file bak dirty sel false none hNI
      Event.npmInstallRegular rfl
    exact ⟨fun h => (h.elim (fun h => absurd h hf) (fun h => absurd h hr)),
      fun h => absurd h hf, fun h => absurd h hr, fun _ h => absurd h hf⟩
  · rw [heq]
    cases hd : (analyzeOf env a).1.dirty
    · rw [installPhase_notDirty_eq]
      obtain ⟨rest, hrest, -, hrni⟩ :=
        diffPhase_trace_decomp env a d tr file false (analyzeOf env a).1.selected
      have hti : noInstall (tr ++ rest) := noInstall_append tr rest hNI hrni
      have hf := noInstall_not_mem (tr ++ rest) hti Event.npmInstallForce rfl
      have hr := noInstall_not_mem (tr ++ rest) hti Event.npmInstallRegular rfl
      rw [← hrest] at hf hr
      exact ⟨fun h => (h.elim (fun h => absurd h hf) (fun h => absurd h hr)),
        fun h => absurd h hf, fun h => absurd h hr, fun _ h => absurd h hf⟩
    · by_cases hF : env.forceInstallOk = false
      · rw [installPhase_forceFail_eq env a d tr file _ hF]
        have hregnot : Event.npmInstallRegular ∉
            (mkFail d (tr ++ [Event.removeNodeModulesStep, Event.npmInstallForce])
              file false true (analyzeOf env a).1.selected false none).trace := by
          intro h
          simp only [mkFail] at h
          rcases List.mem_append.mp h with h | h
          · rcases List.mem_append.mp h with h | h
            · simpa [Event.isInstallish] using hNI _ h
            · exact absurd h (by decide)
          · exact absurd h (by decide)
        have hcommitnot : ∀ m, Event.gitCommit m ∉
            (mkFail d (tr ++ [Event.removeNodeModulesStep, Event.npmInstallForce])
              file false true (analyzeOf env a).1.selected false none).trace := by
          intro m h
          simp only [mkFail] at h
          rcases List.mem_append.mp h with h | h
          · rcases List.mem_append.mp h with h | h
            · simpa [Event.isCommitEv] using hNC _ h
            · simp at h
          · simp at h
        refine ⟨fun _ => rfl, ?_, ?_, ?_⟩
        · intro _
          exact ⟨tr, [Event.chdirOriginal], by simp [mkFail]⟩
        · intro h
          exact absurd h hregnot
        · intro _ _
          exact ⟨rfl, hregnot, hcommitnot, rfl, rfl⟩
      · rw [Bool.not_eq_false] at hF
        by_cases hR : env.regularInstallOk = false
        · rw [installPhase_regFail_eq env a d tr file _ hF hR]
          refine ⟨fun _ => rfl, ?_, ?_, ?_⟩
          · intro _
            exact ⟨tr, [Event.removeNodeModulesStep, Event.npmInstallRegular,
              Event.chdirOriginal], by simp [mkFail]⟩
          · intro _
            exact ⟨tr ++ [Event.removeNodeModulesStep, Event.npmInstallForce],
              [Event.chdirOriginal], by simp [mkFail]⟩
          · intro hcontra _
            rw [hF] at hcontra
            cases hcontra
        · rw [Bool.not_eq_false] at hR
          rw [installPhase_ok_eq env a d tr file _ hF hR]
          obtain ⟨rest, hrest, -, -⟩ :=
            diffPhase_trace_decomp env a d
              (tr ++ [Event.removeNodeModulesStep, Event.npmInstallForce,
                Event.removeNodeModulesStep, Event.npmInstallRegular])
              file true (analyzeOf env a).1.selected
          refine ⟨fun _ => by rw [diffPhase_dirty], ?_, ?_, ?_⟩
          · intro _
            exact ⟨tr, [Event.removeNodeModulesStep, Event.npmInstallRegular] ++ rest,
              by rw [hrest]; simp⟩
          · intro _
            exact ⟨tr ++ [Event.removeNodeModulesStep, Event.npmInstallForce], rest,
              by rw [hrest]; simp⟩
          · intro hcontra _
            rw [hF] at hcontra
            cases hcontra

theorem preTr5_noCommit : noCommit preTr5 := by
  intro e he
  simp only [preTr5, List.mem_cons, List.not_mem_nil, or_false] at he
  rcases he with rfl | rfl | rfl | rfl | rfl <;> rfl

theorem preTr5_noInstall : noInstall preTr5 := by
  intro e he
  simp only [preTr5, List.mem_cons, List.not_mem_nil, or_false] at he
  rcases he with rfl | rfl | rfl | rfl | rfl <;> rfl

/-- The whole prefix trace of a good-path run that reached the install
phase is commit-free. -/
theorem goodTr_noCommit (env : RepoEnv) (a : UpdateArgs) :
    noCommit (preTr5 ++ Event.backupManifest ::
      ((analyzeOf env a).1.trace ++
        (if (analyzeOf env a).1.dirty then ([] : List Event) else [Event.restoreBackup]) ++
        [Event.removeBackup])) := by
  intro e he
  simp only [List.mem_append, List.mem_cons, List.not_mem_nil, or_false] at he
  rcases he with he | rfl | (he | he) | rfl
  · exact preTr5_noCommit e he
  · rfl
  · exact analyzeOf_noCommit env a e he
  · split at he
    · simp at he
    · simp only [List.mem_cons, List.not_mem_nil, or_false] at he
      subst he
      rfl
  · rfl

/-- Change-detection behavior through the install phase. -/
theorem installPhase_c4 (env : RepoEnv) (a : UpdateArgs) (d : String) (tr : List Event)
    (file : ManifestFile) (dirty : Bool) (sel : List (String × String)) (hNC : noCommit tr)
    (hI : dirty = true → env.forceInstallOk = true ∧ env.regularInstallOk = true) :
    Event.gitDiffCheck ∈ (installPhase env a d tr file dirty sel).trace ∧
    (env.diffReportsChanges = false →
      (installPhase env a d tr file dirty sel).ret = true ∧
      (installPhase env a d tr file dirty sel).committed = false ∧
      (installPhase env a d tr file dirty sel).prCreated = false ∧
      (installPhase env a d tr file dirty sel).branchDeleted = true ∧
      Event.gitCheckoutMainCleanup ∈ (installPhase env a d tr file dirty sel).trace ∧
      Event.gitBranchDelete ∈ (installPhase env a d tr file dirty sel).trace ∧
      (∀ m, Event.gitCommit m ∉ (installPhase env a d tr file dirty sel).trace)) := by
  cases dirty
  · rw [installPhase_notDirty_eq]
    exact diffPhase_c4 env a d tr file false sel hNC
  · obtain ⟨hF, hR⟩ := hI rfl
    rw [installPhase_ok_eq env a d tr file sel hF hR]
    refine diffPhase_c4 env a d _ file true sel (noCommit_append _ _ hNC ?_)
    intro e he
    simp only [List.mem_cons, List.not_mem_nil, or_false] at he
    rcases he with rfl | rfl | rfl | rfl <;> rfl

/-- C4: on every run that reaches change detection (preparation stages
succeed, the analyze loop completes, and the install phases succeed when
they run at all), the diff probe is evaluated whether or not any manifest
edit was made; and a no-changes verdict makes the pipeline switch back to
trunk, delete the fresh branch, create no commit and no pull request, and
return the non-failure outcome. -/
theorem C4_change_detection_and_cleanup (env : RepoEnv) (a : UpdateArgs) (d : String)
    (h1 : env.chdirOk = true) (h2 : env.checkoutMainOk = true) (h3 : env.pullOk = true)
    (h4 : env.branchOk = true) (h5 : (analyzeOf env a).2 = false)
    (h6 : (analyzeOf env a).1.dirty = true →
      env.forceInstallOk = true ∧ env.regularInstallOk = true) :
    Event.gitDiffCheck ∈ (updateRepo env a d).trace ∧
    (env.diffReportsChanges = false →
      (updateRepo env a d).ret = true ∧
      (updateRepo env a d).committed = false ∧
      (updateRepo env a d).prCreated = false ∧
      (updateRepo env a d).branchDeleted = true ∧
      Event.gitCheckoutMainCleanup ∈ (updateRepo env a d).trace ∧
      Event.gitBranchDelete ∈ (updateRepo env a d).trace ∧
      (∀ m, Event.gitCommit m ∉ (updateRepo env a d).trace)) := by
  rw [updateRepo_good_eq env a d h1 h2 h3 h4 h5]
  by_cases hm : env.manifest = ManifestFile.missing
  · rw [if_pos hm]
    exact installPhase_c4 env a d preTr5 env.manifest false [] preTr5_noCommit
      (fun h => (Bool.false_ne_true h).elim)
  · rw [if_neg hm]
    exact installPhase_c4 env a d _ _ _ _ (goodTr_noCommit env a) h6

/-- C10 amended: when the preparation stages succeed and the analyze loop
completes without a comparator exception, the backup file is removed before
the run proceeds, a run with no successful edit has its manifest restored to
the stage-entry content, and whenever a manifest existed the backup step
precedes every per-package edit in the trace. -/
theorem C10_amended_backup_restore (env : RepoEnv) (a : UpdateArgs) (d : String)
    (h1 : env.chdirOk = true) (h2 : env.checkoutMainOk = true) (h3 : env.pullOk = true)
    (h4 : env.branchOk = true) (h5 : (analyzeOf env a).2 = false) :
    (updateRepo env a d).backupPresent = false ∧
    ((updateRepo env a d).dirty = false → (updateRepo env a d).manifest = env.manifest) ∧
    (env.manifest ≠ ManifestFile.missing →
      ∃ l1 l2, (updateRepo env a d).trace = l1 ++ Event.backupManifest :: l2 ∧
        ∀ p v b, Event.manifestEdit p v b ∉ l1) := by
  rw [updateRepo_good_eq env a d h1 h2 h3 h4 h5]
  by_cases hm : env.manifest = ManifestFile.missing
  · rw [if_pos hm]
    exact ⟨installPhase_backup env a d preTr5 env.manifest false [],
      fun _ => installPhase_manifest env a d preTr5 env.manifest false [],
      fun hc => absurd hm hc⟩
  · rw [if_neg hm]
    refine ⟨installPhase_backup env a d _ _ _ _, ?_, ?_⟩
    · intro hdirty
      rw [installPhase_dirty] at hdirty
      rw [installPhase_manifest, hdirty]
      simp
    · intro _
      obtain ⟨rest2, hrest2⟩ := installPhase_trace_decomp env a d
        (preTr5 ++ Event.backupManifest ::
          ((analyzeOf env a).1.trace ++
            (if (analyzeOf env a).1.dirty then ([] : List Event) else [Event.restoreBackup]) ++
            [Event.removeBackup]))
        (if (analyzeOf env a).1.dirty then (analyzeOf env a).1.file else env.manifest)
        (analyzeOf env a).1.dirty (analyzeOf env a).1.selected
      refine ⟨preTr5,
        ((analyzeOf env a).1.trace ++
          (if (analyzeOf env a).1.dirty then ([] : List Event) else [Event.restoreBackup]) ++
          [Event.removeBackup]) ++ rest2, ?_, ?_⟩
      · rw [hrest2]
        simp
      · intro p v b hmem
        simp only [preTr5, List.mem_cons, List.not_mem_nil, or_false] at hmem
        rcases hmem with h | h | h | h | h <;> cases h

/-- C5 amended: whenever a run commits, the commit message (and, when a PR
is opened, its title and body) enumerates exactly the packages the analyze
loop selected for update, in input order; every selected package was, at
selection time, present in the manifest with a determinable current version
strictly below the target — so no NotFound or AlreadyCurrent package ever
appears. A package whose individual manifest edit failed is still selected
and therefore still appears; when nothing was selected the original
requested-packages title is used. -/
theorem C5_amended_commit_text (env : RepoEnv) (a : UpdateArgs) (d : String) :
    (∀ pv ∈ (updateRepo env a d).selected, selectedSound pv) ∧
    ((updateRepo env a d).selected ≠ [] →
      ((updateRepo env a d).committed = true →
        (updateRepo env a d).commitMsg =
          some ("Update npm packages: " ++ mkPackageListPairs (updateRepo env a d).selected)) ∧
      ((updateRepo env a d).prCreated = true →
        (updateRepo env a d).prInfo =
          some ("Update npm packages: " ++ mkPackageListPairs (updateRepo env a d).selected,
            mkPrBodyPairs (updateRepo env a d).selected))) := by
  rcases updateRepo_cases env a d with
    ⟨tr, file, bak, dirty, sel, hNI, hNC, hsel, heq⟩ | ⟨tr, file, hNI, hNC, heq⟩
  · rw [heq]
    constructor
    · intro pv hpv
      simp only [mkFail] at hpv
      rcases hsel with rfl | rfl
      · simp at hpv
      · exact analyzeOf_selected_sound env a pv hpv
    · intro _
      exact ⟨fun h => (Bool.false_ne_true h).elim, fun h => (Bool.false_ne_true h).elim⟩
  · rw [heq]
    have hselp := installPhase_selected env a d tr file (analyzeOf env a).1.dirty
      (analyzeOf env a).1.selected
    constructor
    · intro pv hpv
      rw [hselp] at hpv
      exact analyzeOf_selected_sound env a pv hpv
    · intro hne
      rw [hselp] at hne ⊢
      exact installPhase_c5 env a d tr file (analyzeOf env a).1.dirty
        (analyzeOf env a).1.selected hne

/-- C5 counterexample: pkgA's manifest edit failed (recorded false in the
trace, and the manifest on disk still holds pkgA at ^1.0.0), yet the commit
message and PR title of the run name pkgA — refuting the claim that no
package whose individual manifest edit failed appears. -/
theorem C5_counterexample_failed_edit_listed :
    (updateRepo envC5 argsC5 "/w").commitMsg =
      some "Update npm packages: pkgA@^2.0.0, pkgB@^2.0.0" ∧
    Event.manifestEdit "pkgA" "^2.0.0" false ∈ (updateRepo envC5 argsC5 "/w").trace ∧
    (updateRepo envC5 argsC5 "/w").manifest =
      ManifestFile.valid ⟨some [("pkgA", "^1.0.0"), ("pkgB", "^2.0.0")], none, none⟩ ∧
    (updateRepo envC5 argsC5 "/w").prCreated = true := by
  refine ⟨by decide, by decide, by decide, by decide⟩

/-- C10 counterexample: the comparator exception escapes the analyze loop,
the run fails with zero successful edits and the manifest unchanged, but
package.json.bak is still on disk and the backup-removal step never ran —
refuting "the backup file removed in every case". -/
theorem C10_counterexample_backup_left :
    (updateRepo envC10 argsC10 "/w").backupPresent = true ∧
    (updateRepo envC10 argsC10 "/w").dirty = false ∧
    (updateRepo envC10 argsC10 "/w").manifest =
      ManifestFile.valid ⟨some [("pkgP", "garbage")], none, none⟩ ∧
    (updateRepo envC10 argsC10 "/w").ret = false ∧
    Event.removeBackup ∉ (updateRepo envC10 argsC10 "/w").trace := by
  refine ⟨by decide, by decide, by decide, by decide, by decide⟩

/-- Closed instance of C4 on the no-changes repository. -/
theorem C4_change_detection_witness :
    Event.gitDiffCheck ∈ (updateRepo repoEnvNoChanges
      (batchArgs batchEnvNoChanges ["test-pkg"] ["^2.0.0"] "repo1") "/work").trace ∧
    (repoEnvNoChanges.diffReportsChanges = false →
      (updateRepo repoEnvNoChanges
        (batchArgs batchEnvNoChanges ["test-pkg"] ["^2.0.0"] "repo1") "/work").ret = true ∧
      (updateRepo repoEnvNoChanges
        (batchArgs batchEnvNoChanges ["test-pkg"] ["^2.0.0"] "repo1") "/work").committed = false ∧
      (updateRepo repoEnvNoChanges
        (batchArgs batchEnvNoChanges ["test-pkg"] ["^2.0.0"] "repo1") "/work").prCreated = false ∧
      (updateRepo repoEnvNoChanges
        (batchArgs batchEnvNoChanges ["test-pkg"] ["^2.0.0"] "repo1") "/work").branchDeleted = true ∧
      Event.gitCheckoutMainCleanup ∈ (updateRepo repoEnvNoChanges
        (batchArgs batchEnvNoChanges ["test-pkg"] ["^2.0.0"] "repo1") "/work").trace ∧
      Event.gitBranchDelete ∈ (updateRepo repoEnvNoChanges
        (batchArgs batchEnvNoChanges ["test-pkg"] ["^2.0.0"] "repo1") "/work").trace ∧
      (∀ m, Event.gitCommit m ∉ (updateRepo repoEnvNoChanges
        (batchArgs batchEnvNoChanges ["test-pkg"] ["^2.0.0"] "repo1") "/work").trace)) :=
  C4_change_detection_and_cleanup repoEnvNoChanges
    (batchArgs batchEnvNoChanges ["test-pkg"] ["^2.0.0"] "repo1") "/work"
    rfl rfl rfl rfl (by decide) (by decide)

/-- Closed instance of the amended C10 on the no-changes repository. -/
theorem C10_amended_witness :
    (updateRepo repoEnvNoChanges
      (batchArgs batchEnvNoChanges ["test-pkg"] ["^2.0.0"] "repo1") "/work").backupPresent =
      false ∧
    ((updateRepo repoEnvNoChanges
      (batchArgs batchEnvNoChanges ["test-pkg"] ["^2.0.0"] "repo1") "/work").dirty = false →
      (updateRepo repoEnvNoChanges
        (batchArgs batchEnvNoChanges ["test-pkg"] ["^2.0.0"] "repo1") "/work").manifest =
        repoEnvNoChanges.manifest) ∧
    (repoEnvNoChanges.manifest ≠ ManifestFile.missing →
      ∃ l1 l2, (updateRepo repoEnvNoChanges
        (batchArgs batchEnvNoChanges ["test-pkg"] ["^2.0.0"] "repo1") "/work").trace =
          l1 ++ Event.backupManifest :: l2 ∧
        ∀ p v b, Event.manifestEdit p v b ∉ l1) :=
  C10_amended_backup_restore repoEnvNoChanges
    (batchArgs batchEnvNoChanges ["test-pkg"] ["^2.0.0"] "repo1") "/work"
    rfl rfl rfl rfl (by decide)

/-- C7 counterexample: the comparator's failure is an exception, not a
returned error value. On a manifest holding pkgQ at the unparsable version
"garbage" and pkgR genuinely outdated, versionIsHigherOrEqual fails on
pkgQ, and that failure escapes the analyze loop as the exception the
un-caught semver.gte raises: the loop aborts before pkgR is ever examined
(no selection, no edit event), the top-level catch ends the whole run as
failed, and the backup is left behind. A comparator that returned an error
value, as the claim states, would have been consumed by the loop's version
check and could not have aborted the run this way (the spec's own analyze
stage treats an unparsable current version as skip-and-continue). -/
theorem C7_counterexample_throw_aborts_run :
    versionIsHigherOrEqual "garbage" "^1.0.0" = Except.error "Invalid Version" ∧
    (analyzeOf envC7 argsC7).2 = true ∧
    (updateRepo envC7 argsC7 "/w").ret = false ∧
    (updateRepo envC7 argsC7 "/w").selected = [] ∧
    (updateRepo envC7 argsC7 "/w").backupPresent = true ∧
    (∀ b, Event.manifestEdit "pkgR" "^2.0.0" b ∉ (updateRepo envC7 argsC7 "/w").trace) := by
  refine ⟨by rfl, by decide, by decide, by decide, by decide, by decide⟩

/-- C7 amended: versionIsHigherOrEqual is pure and total — every pair of
input strings yields either a boolean or the exception of the un-caught
underlying semver comparison (modelled as the Except error) — and that
exception is raised exactly when one of the strings fails to parse as a
dotted numeric version after one leading range operator is stripped; it is
raised rather than returned as a handled error value: whenever the analyze
loop meets it, the exception propagates and the whole repository run ends
failed, with no commit and no pull request. -/
theorem C7_comparator_raises_iff_unparsable :
    (∀ c t : String,
      (∃ b, versionIsHigherOrEqual c t = Except.ok b) ∨
        (∃ e, versionIsHigherOrEqual c t = Except.error e)) ∧
    (∀ c t : String,
      (∃ e, versionIsHigherOrEqual c t = Except.error e) ↔
        (parseVersion (stripRangeOp c) = none ∨ parseVersion (stripRangeOp t) = none)) ∧
    (∀ (env : RepoEnv) (a : UpdateArgs) (d : String), (analyzeOf env a).2 = true →
      (updateRepo env a d).ret = false ∧ (updateRepo env a d).committed = false ∧
        (updateRepo env a d).prCreated = false) := by
  refine ⟨?_, ?_, ?_⟩
  · intro c t
    unfold versionIsHigherOrEqual semverGte
    rcases hc : parseVersion (stripRangeOp c) with _ | vc <;>
      rcases ht : parseVersion (stripRangeOp t) with _ | vt <;> simp
  · intro c t
    unfold versionIsHigherOrEqual semverGte
    rcases hc : parseVersion (stripRangeOp c) with _ | vc <;>
      rcases ht : parseVersion (stripRangeOp t) with _ | vt <;> simp
  · intro env a d hth
    by_cases h1 : env.chdirOk = false
    · simp [updateRepo, h1, mkFail]
    by_cases h2 : env.checkoutMainOk = false
    · simp [updateRepo, h1, h2, mkFail]
    by_cases h3 : env.pullOk = false
    · simp [updateRepo, h1, h2, h3, mkFail]
    by_cases h4 : env.branchOk = false
    · simp [updateRepo, h1, h2, h3, h4, mkFail]
    by_cases hm : env.manifest = ManifestFile.missing
    · rw [analyzeOf_missing env a hm] at hth
      simp at hth
    · simp [updateRepo, h1, h2, h3, h4, hm, hth, mkFail]

end BatchUpgrade
